import Mathlib

/- Verification of purge-dev/CliniCord.

   Shallow embedding of the application script `clinicare.py` (the 21-item
   BDI questionnaire command) and of the bounded-wait primitive
   `interactions/ext/wait_for/wait_for.py` that it uses.

   Modelling conventions:
   * Machine integers are `Nat`/`Int`; Discord snowflake ids are `Nat`.
   * Time is modelled by non-negative integer gaps between consecutive
     dispatched component events: each `TEv` records how long after the start
     of the current `asyncio.wait_for` call the event arrived.  An event
     arriving after the per-call window (`timeout <= gap`) means the
     `asyncio.TimeoutError` fired first.
   * The fallible delivery operation actually exercised by the script is the
     message deletion `ctx.delete()`; its success/failure is an input stream
     (`List Bool`, exhausted = succeeds).  An uncaught exception is the
     `Outcome.crashed` terminal.
   * Outbound side effects (question presentation, retraction, the timeout
     notice, the final tiered result) are recorded in an effect log. -/

namespace CliniCord

/-- A question of the bank: prompt plus the four answer statements
    (`clinicare.py` lines 12-34, the `questions` list entries). -/
structure Question where
  question : String
  options : List String
deriving DecidableEq, Repr

/-- The fixed 21-question bank, `clinicare.py` lines 12-34, in source order. -/
def questions : List Question := [
  ⟨"Sadness", ["I do not feel sad.", "I feel sad much of the time.", "I am sad all the time.", "I am so sad or unhappy that I can\x27t stand it."]⟩,
  ⟨"Pessimism", ["I am not discouraged about my future.", "I feel more discouraged about my future than I used to be.", "I do not expect things to work out for me.", "I feel my future is hopeless and will only get worse."]⟩,
  ⟨"Past failure", ["I do not feel like a failure.", "I have failed more than I should have.", "As I look back, I see a lot of failures.", "I feel I am a complete failure as a person."]⟩,
  ⟨"Loss of pleasure", ["I get as much pleasure as I ever did from the things I enjoy.", "I don\x27t enjoy things as much as I used to.", "I get very little pleasure from the things I used to enjoy.", "I can\x27t get any pleasure from the things I used to enjoy."]⟩,
  ⟨"Guilty feelings", ["I don\x27t feel particularly guilty.", "I feel guilty a good part of the time.", "I feel quite guilty most of the time.", "I feel guilty all of the time."]⟩,
  ⟨"Punishment feelings", ["I don\x27t feel I am being punished.", "I feel I may be punished.", "I expect to be punished.", "I feel I am being punished."]⟩,
  ⟨"Self-dislike", ["I don\x27t feel that I am any worse than anybody else.", "I am critical of myself for my weaknesses or mistakes.", "I blame myself all the time for my faults.", "I blame myself for everything bad that happens."]⟩,
  ⟨"Self-criticalness", ["I don\x27t criticize or blame myself more than usual.", "I am more critical of myself than I used to be.", "I criticize myself for all of my faults.", "I blame myself for everything that goes wrong."]⟩,
  ⟨"Suicidal thoughts or wishes", ["I don\x27t have any thoughts of killing myself.", "I have thoughts of killing myself, but I would not carry them out.", "I would like to kill myself.", "I would kill myself if I had the chance."]⟩,
  ⟨"Crying", ["I don\x27t cry any more than usual.", "I cry more now than I used to.", "I cry all the time now.", "I used to be able to cry, but now I can\x27t cry even though I want to."]⟩,
  ⟨"Agitation", ["I am no more restless or wound up than usual.", "I feel more restless or wound up than usual.", "I am so restless or agitated that it\x27s hard to stay still.", "I am so restless or agitated that I have to keep moving or doing something."]⟩,
  ⟨"Loss of interest", ["I have not lost interest in other people.", "I am less interested in other people than I used to be.", "I have lost most of my interest in other people.", "I have lost all of my interest in other people."]⟩,
  ⟨"Indecisiveness", ["I make decisions about as well as ever.", "I put off making decisions more than I used to.", "I have greater difficulty in making decisions more than I used to.", "I can\x27t make decisions at all anymore."]⟩,
  ⟨"Worthlessness", ["I don\x27t feel that I am worthless.", "I don\x27t consider myself as worthwhile and useful as I used to.", "I feel more worthless as compared to others.", "I feel completely worthless."]⟩,
  ⟨"Loss of energy", ["I have as much energy as ever.", "I have less energy than I used to have.", "I don\x27t have enough energy to do much.", "I don\x27t have enough energy to do anything."]⟩,
  ⟨"Changes in sleeping pattern", ["I have not experienced any change in my sleeping pattern.", "I sleep somewhat more than usual.", "I sleep somewhat less than usual.", "I sleep a lot less than usual."]⟩,
  ⟨"Irritability", ["I am no more irritable than usual.", "I am more irritable than usual.", "I am much more irritable than usual.", "I am irritable all the time."]⟩,
  ⟨"Changes in appetite", ["My appetite is no different than usual.", "My appetite is not as good as it used to be.", "My appetite is much worse now.", "I have no appetite at all anymore."]⟩,
  ⟨"Concentration difficulties", ["I can concentrate as well as ever.", "I can\x27t concentrate as well as usual.", "It\x27s hard to keep my mind on anything for very long.", "I find I can\x27t concentrate on anything."]⟩,
  ⟨"Tiredness or fatigue", ["I am no more tired or fatigued than usual.", "I get more tired or fatigued more easily than I used to.", "I am too tired or fatigued to do many of the things I used to do.", "I am too tired or fatigued to do most of the things I used to do."]⟩,
  ⟨"Loss of interest in sex", ["I have not noticed any recent change in my interest in sex.", "I am less interested in sex than I used to be.", "I have lost interest in sex completely.", "I find sex completely unappealing."]⟩
]

/-- A select-menu option: `SelectOption(label=..., value=...)`. The emoji
    argument is purely decorative and not modelled. -/
structure SelectOption where
  label : String
  value : String
deriving DecidableEq, Repr

/-- The four menu options built for one question (`clinicare.py` lines 50-57):
    the option at position `j` carries the question\x27s `j`-th statement as its
    label and the string `str(j)` as its value, so the weight of a choice is
    its positional index.  Indexing is total here via `getD`; every question in
    the bank has exactly 4 options (proved below), so the default is never
    used. -/
def selection (q : Question) : List SelectOption :=
  [⟨q.options.getD 0 "", "0"⟩,
   ⟨q.options.getD 1 "", "1"⟩,
   ⟨q.options.getD 2 "", "2"⟩,
   ⟨q.options.getD 3 "", "3"⟩]

/-- The six severity branches of the `if/elif` chain at `clinicare.py`
    lines 79-119, identified by their embed descriptions
    (normal / mild / borderline / moderate / severe / extreme). -/
inductive Tier
  | normal
  | mild
  | borderline
  | moderate
  | severe
  | extreme
deriving DecidableEq, Repr

/-- The result classification: the `if/elif` chain of `clinicare.py`
    lines 79-119, branch conditions transcribed verbatim.  The chain has no
    `else`, so a score matching no branch would send no result message:
    that case is `none`. -/
def classify (score : Int) : Option Tier :=
  if score ≤ 10 then some .normal
  else if 11 ≤ score ∧ score ≤ 16 then some .mild
  else if 17 ≤ score ∧ score ≤ 20 then some .borderline
  else if 21 ≤ score ∧ score ≤ 30 then some .moderate
  else if 31 ≤ score ∧ score ≤ 40 then some .severe
  else if 40 < score then some .extreme
  else none

/-- Lower bound of each tier\x27s score range, from the spec\x27s table
    (Normal 0-10, Mild 11-16, Borderline 17-20, Moderate 21-30,
    Severe 31-40, Extreme 41+). -/
def tierLo : Tier → Nat
  | .normal => 0
  | .mild => 11
  | .borderline => 17
  | .moderate => 21
  | .severe => 31
  | .extreme => 41

/-- Upper bound (inclusive) of each tier\x27s score range from the spec\x27s
    table; the last tier is unbounded above. -/
def tierHi : Tier → Option Nat
  | .normal => some 10
  | .mild => some 16
  | .borderline => some 20
  | .moderate => some 30
  | .severe => some 40
  | .extreme => none

/-- Membership of a non-negative score in a tier\x27s range per the spec table. -/
def inTier (s : Nat) (t : Tier) : Bool :=
  decide (tierLo t ≤ s) &&
    (match tierHi t with
     | some h => decide (s ≤ h)
     | none => true)

/-- The tier the spec\x27s table assigns to a non-negative score (the
    refinement-side definition, written from the spec\x27s words, to be compared
    with `classify`). -/
def specTier (s : Nat) : Tier :=
  if s ≤ 10 then .normal
  else if s ≤ 16 then .mild
  else if s ≤ 20 then .borderline
  else if s ≤ 30 then .moderate
  else if s ≤ 40 then .severe
  else .extreme

/-- Modelled from the spec: `QuestionBank.size` (spec 4.1); absent from src,
    where the script just iterates the bare Python list. -/
def size : Nat := questions.length

/-- Modelled from the spec: `QuestionBank.get`, which fails with
    `OutOfRangeError` for any index outside `[0, 20]` (spec 4.1); absent from
    src, where the script indexes the list directly.  `none` plays
    `OutOfRangeError`. -/
def get (i : Int) : Option Question :=
  if 0 ≤ i ∧ i ≤ 20 then questions.get? i.toNat else none

/-- A dispatched component interaction, projected to the fields the program
    reads: `res.author.id`, `res.data.custom_id`, and `int(res.data.values[0])`
    (the selected value, already converted to its integer weight). -/
structure Resp where
  author : Nat
  customId : String
  value : Nat
deriving DecidableEq, Repr

/-- A timed dispatched event: `gap` is the time elapsed from the start of the
    enclosing `asyncio.wait_for` call to this event\x27s arrival. -/
structure TEv where
  gap : Nat
  resp : Resp
deriving DecidableEq, Repr

/-- The session\x27s acceptance predicate, `check` at `clinicare.py`
    lines 63-65: the responder is the command invoker and the component\x27s
    correlation token is the pending menu\x27s `custom_id`, which is `str(i)`
    (line 59). -/
def check (owner i : Nat) (r : Resp) : Bool :=
  r.author == owner && r.customId == toString i

/-- The library-side filter `_check` in `wait_for.py` lines 128-135: reject a
    context whose `custom_id` is not among the awaited components\x27 ids, then
    defer to the user check.  (The `messages` filter is unused by this
    program and omitted.) -/
def libCheck (customIds : List String) (chk : Resp → Bool) (r : Resp) : Bool :=
  if !customIds.isEmpty && !customIds.contains r.customId then false
  else chk r

/-- The bounded wait loop of `wait_for.py` lines 38-60: repeatedly await the
    next dispatched event with a fresh `asyncio.wait_for` window of `timeout`
    per iteration; an event arriving at `gap ≥ timeout` means the timeout
    fired first (`none`); a dispatched event that fails the check is dropped
    and the loop re-arms.  On acceptance, returns the accepted response, the
    undelivered remainder of the stream, and the total elapsed time since the
    wait began. -/
def wait_for (timeout : Nat) (chk : Resp → Bool) : List TEv → Option (Resp × List TEv × Nat)
  | [] => none
  | te :: rest =>
      if timeout ≤ te.gap then none
      else if chk te.resp then some (te.resp, rest, te.gap)
      else
        match wait_for timeout chk rest with
        | none => none
        | some (r, rem, t) => some (r, rem, te.gap + t)

/-- `wait_for_component` of `wait_for.py` lines 63-137, specialised to a
    single awaited component: collect its `custom_id` and run `wait_for` with
    the composite filter. -/
def wait_for_component (customIds : List String) (chk : Resp → Bool) (timeout : Nat)
    (tr : List TEv) : Option (Resp × List TEv × Nat) :=
  wait_for timeout (libCheck customIds chk) tr

/-- The composite acceptance filter in force while question `i` is pending:
    library filter for the menu\x27s `custom_id = str(i)` composed with the
    session\x27s `check`. -/
def qcheck (owner i : Nat) : Resp → Bool :=
  libCheck [toString i] (check owner i)

/-- Outbound side effects of one session, in order of occurrence.  Every
    message-sending constructor records the `ephemeral` flag it was sent
    with; `retract` records whether the `ctx.delete()` call succeeded. -/
inductive Effect
  | present (i : Nat) (ephemeral : Bool)
  | retract (ok : Bool)
  | notifyTimeout (ephemeral : Bool)
  | sendResult (t : Tier) (ephemeral : Bool)
deriving DecidableEq, Repr

/-- How a session run ends: completing all questions with a final score, the
    timeout abort of `clinicare.py` lines 73-76, or an uncaught exception
    (only a failed `ctx.delete()` here - nothing else raised is caught). -/
inductive Outcome
  | scored (score : Nat)
  | abortedTimeout
  | crashed
deriving DecidableEq, Repr

/-- The result messages after the loop (`clinicare.py` lines 79-119): the
    branch that matches sends one ephemeral embed; if no branch matched,
    nothing is sent. -/
def resultEffs (score : Nat) : List Effect :=
  match classify score with
  | some t => [.sendResult t true]
  | none => []

/-- The question loop of `clinicare.py` lines 49-76 plus the postlude at
    79-119, from question index `i` with accumulated `score`, over the
    remaining questions `qs`, the stream `tr` of dispatched component events,
    and the stream `del` of `ctx.delete()` results (exhausted = success).
    Per iteration: present question `i` (line 61, `ephemeral=True`), run the
    bounded wait (line 68, `timeout=60`); on acceptance delete the message and
    add the selected weight (lines 69-71); on `asyncio.TimeoutError` delete
    the message, send the ephemeral retry notice, and return (lines 73-76).
    A failed delete is an uncaught exception: the run crashes with no further
    effects. -/
def runQuestionsF (owner : Nat) :
    List Question → Nat → Nat → List TEv → List Bool → Outcome × List Effect
  | [], _i, score, _tr, _del => (.scored score, resultEffs score)
  | _q :: qs, i, score, tr, del =>
      match wait_for_component [toString i] (check owner i) 60 tr with
      | some (r, rest, _e) =>
          if del.headD true then
            let p := runQuestionsF owner qs (i + 1) (score + r.value) rest del.tail
            (p.1, .present i true :: .retract true :: p.2)
          else (.crashed, [.present i true, .retract false])
      | none =>
          if del.headD true then
            (.abortedTimeout, [.present i true, .retract true, .notifyTimeout true])
          else (.crashed, [.present i true, .retract false])

/-- One whole `/depression` session (`clinicare.py` lines 37-119) for the
    invoking user `owner`, given the dispatched-event and delete-result
    streams. -/
def depression (owner : Nat) (tr : List TEv) (del : List Bool) :
    Outcome × List Effect :=
  runQuestionsF owner questions 0 0 tr del

/-- Platform invariant on dispatched select-menu events: Discord only
    dispatches values drawn from the interacted menu\x27s options, and every
    menu this program creates has option values `"0"`..`"3"` (see
    `selection`), so every dispatched value is at most 3. -/
def wfTrace (tr : List TEv) : Prop :=
  ∀ ev ∈ tr, ev.resp.value ≤ 3

/-- The weights of the choices the session accepts, question by question
    (spec-side mirror of the run used to state
    `score == sum(selected weights)`). -/
def selectedWeights (owner : Nat) : List Question → Nat → List TEv → List Nat
  | [], _, _ => []
  | _q :: qs, i, tr =>
      match wait_for_component [toString i] (check owner i) 60 tr with
      | none => []
      | some (r, rest, _e) => r.value :: selectedWeights owner qs (i + 1) rest

/-- The successive values of the score accumulator during a session: the
    value on entering each question, and the final value on completion or at
    the point the wait times out. -/
def partialScores (owner : Nat) : List Question → Nat → Nat → List TEv → List Nat
  | [], _, s, _ => [s]
  | _q :: qs, i, s, tr =>
      match wait_for_component [toString i] (check owner i) 60 tr with
      | none => [s]
      | some (r, rest, _e) => s :: partialScores owner qs (i + 1) (s + r.value) rest

/-- The present/retract effect pairs of `k` successfully answered questions
    starting at index `i`. -/
def answeredEffs : Nat → Nat → List Effect
  | _, 0 => []
  | i, k + 1 => .present i true :: .retract true :: answeredEffs (i + 1) k

/-- Whether an effect is a question presentation. -/
def isPresentB : Effect → Bool
  | .present _ _ => true
  | _ => false

/-- Whether an effect is a retraction attempt. -/
def isRetractB : Effect → Bool
  | .retract _ => true
  | _ => false

/-- Number of question presentations in an effect log. -/
def countPresent (l : List Effect) : Nat := l.countP isPresentB

/-- Number of retraction attempts in an effect log. -/
def countRetract (l : List Effect) : Nat := l.countP isRetractB

/-- The question indices presented, in log order. -/
def presentsOf (l : List Effect) : List Nat :=
  l.filterMap fun e =>
    match e with
    | .present j _ => some j
    | _ => none

/-- An effect is sent ephemerally (retraction carries no flag and counts as
    compliant). -/
def ephemeralOk : Effect → Bool
  | .present _ e => e
  | .retract _ => true
  | .notifyTimeout e => e
  | .sendResult _ e => e

/-- A complete-session event stream: the owner answers every question `i`
    with its most severe choice (weight 3), each response arriving
    immediately. -/
def fullTrace : List TEv :=
  (List.range 21).map fun i => ⟨0, ⟨1, toString i, 3⟩⟩

/-- A component event from a different user (id 2), used as a non-matching
    response in concrete runs. -/
def strangerResp : Resp := ⟨2, "0", 0⟩

/-- A matching response from the session owner (id 1) for question 0. -/
def ownerResp : Resp := ⟨1, "0", 0⟩


/-- The first question of the bank, used as a concrete witness input. -/
def q0 : Question := questions.getD 0 ⟨"", []⟩

/-- The effect log of the timed-out empty-stream session. -/
def abortEffs : List Effect := [.present 0 true, .retract true, .notifyTimeout true]

/-- The effect log of the complete all-weight-3 session: 21 present/retract
    pairs and the Extreme result. -/
def fullEffs : List Effect := answeredEffs 0 21 ++ [.sendResult .extreme true]

/- ------------------------------------------------------------------ -/
/- Helper lemmas                                                      -/
/- ------------------------------------------------------------------ -/

/-- The source\x27s `if/elif` classification chain agrees with the spec\x27s
    six-range table on every non-negative score. -/
theorem classify_coe_nat (s : Nat) : classify s = some (specTier s) := by
  unfold classify specTier
  split_ifs <;> first | rfl | omega

/-- Membership in a tier range per the spec table determines the tier. -/
theorem inTier_iff (s : Nat) (t : Tier) : inTier s t = true ↔ t = specTier s := by
  cases t <;>
    simp only [inTier, tierLo, tierHi, specTier, Bool.and_eq_true, decide_eq_true_eq] <;>
    split_ifs <;>
    simp_all <;> omega


/-- In an all-successes delete stream the next delete succeeds. -/
theorem headD_true (del : List Bool) (h : ∀ b ∈ del, b = true) :
    del.headD true = true := by
  cases del with
  | nil => rfl
  | cons b bs => exact h b (List.mem_cons_self b bs)

/-- The tail of an all-successes delete stream is again all successes. -/
theorem tail_all_true (del : List Bool) (h : ∀ b ∈ del, b = true) :
    ∀ b ∈ del.tail, b = true := by
  cases del with
  | nil => simp
  | cons b bs => exact fun x hx => h x (List.mem_cons_of_mem b hx)

/-- The post-loop classification always sends exactly one result message,
    because every non-negative score matches a branch of the chain. -/
theorem resultEffs_eq (f : Nat) :
    resultEffs f = [.sendResult (specTier f) true] := by
  unfold resultEffs
  rw [classify_coe_nat]

/-- Shape of every run with reliable deletes: either all remaining questions
    are answered - the log is the present/retract pairs followed by the one
    result message - or the wait for some remaining question `i + k` times
    out - the log is the pairs for the `k` answered questions followed by the
    timed-out question\x27s present/retract and the retry notice. -/
theorem runF_shape (owner : Nat) :
    ∀ (qs : List Question) (i s : Nat) (tr : List TEv) (del : List Bool),
      (∀ b ∈ del, b = true) →
      (∃ f, runQuestionsF owner qs i s tr del =
          (.scored f, answeredEffs i qs.length ++ resultEffs f)) ∨
      (∃ k, k < qs.length ∧ runQuestionsF owner qs i s tr del =
          (.abortedTimeout, answeredEffs i (k + 1) ++ [.notifyTimeout true])) := by
  intro qs
  induction qs with
  | nil =>
      intro i s tr del hdel
      exact .inl ⟨s, by simp [runQuestionsF, answeredEffs]⟩
  | cons q qs ih =>
      intro i s tr del hdel
      have hhd : del.headD true = true := headD_true del hdel
      rw [List.headD_eq_head?] at hhd
      cases hW : wait_for_component [toString i] (check owner i) 60 tr with
      | none =>
          refine .inr ⟨0, Nat.succ_pos _, ?_⟩
          rw [runQuestionsF, hW]
          simp [hhd, answeredEffs]
      | some v =>
          obtain ⟨r, rest, e⟩ := v
          rcases ih (i + 1) (s + r.value) rest del.tail (tail_all_true del hdel) with
            ⟨f, hrun⟩ | ⟨k, hk, hrun⟩
          · refine .inl ⟨f, ?_⟩
            rw [runQuestionsF, hW]
            simp [hhd, hrun, answeredEffs, List.length_cons]
          · refine .inr ⟨k + 1, by simpa using Nat.succ_lt_succ hk, ?_⟩
            rw [runQuestionsF, hW]
            simp [hhd, hrun, answeredEffs]

/-- Each answered question contributes exactly one presentation. -/
theorem countPresent_answered : ∀ (k i : Nat), countPresent (answeredEffs i k) = k := by
  intro k
  induction k with
  | zero => intro i; rfl
  | succ m ih =>
      intro i
      simp [answeredEffs, countPresent, List.countP_cons, isPresentB] at *
      exact ih (i + 1)

/-- Each answered question contributes exactly one retraction. -/
theorem countRetract_answered : ∀ (k i : Nat), countRetract (answeredEffs i k) = k := by
  intro k
  induction k with
  | zero => intro i; rfl
  | succ m ih =>
      intro i
      simp [answeredEffs, countRetract, List.countP_cons, isRetractB] at *
      exact ih (i + 1)

/-- No result message occurs among the present/retract pairs. -/
theorem sendResult_not_mem_answered :
    ∀ (k i : Nat) (t : Tier) (b : Bool), Effect.sendResult t b ∉ answeredEffs i k := by
  intro k
  induction k with
  | zero => intro i t b; simp [answeredEffs]
  | succ m ih =>
      intro i t b
      simp [answeredEffs]
      exact ih (i + 1) t b

/- ------------------------------------------------------------------ -/
/- Claims                                                             -/
/- ------------------------------------------------------------------ -/

/-- C1: the result classifier maps every non-negative final score to exactly
    one of the six tiers of the table Normal 0-10, Mild 11-16, Borderline
    17-20, Moderate 21-30, Severe 31-40, Extreme 41+, whose ranges are
    contiguous and non-overlapping (each score lies in exactly one range,
    the one of the tier returned); in particular classify(10)=Normal,
    11=Mild, 20=Borderline, 21=Moderate, 30=Moderate, 31=Severe, 40=Severe,
    41=Extreme. -/
theorem classify_matches_tier_table :
    (∀ s : Nat, classify s = some (specTier s) ∧ inTier s (specTier s) = true ∧
      ∀ t, inTier s t = true → t = specTier s) ∧
    classify 10 = some .normal ∧ classify 11 = some .mild ∧
    classify 20 = some .borderline ∧ classify 21 = some .moderate ∧
    classify 30 = some .moderate ∧ classify 31 = some .severe ∧
    classify 40 = some .severe ∧ classify 41 = some .extreme := by
  refine ⟨fun s => ⟨classify_coe_nat s, (inTier_iff s _).2 rfl,
    fun t ht => (inTier_iff s t).1 ht⟩, ?_, ?_, ?_, ?_, ?_, ?_, ?_, ?_⟩ <;> decide

/-- C1 witness: at score 25 the only tier whose range contains 25 is the
    Moderate tier the classifier returns. -/
theorem classify_matches_tier_table_w : Tier.moderate = specTier 25 :=
  (classify_matches_tier_table.1 25).2.2 Tier.moderate (by decide)

/-- C8 counterexample: on the negative score -1 the chain does not fail at
    all - the first branch `score <= 10` matches, so the code returns the
    Normal result instead of an `InvalidScoreError` (no such error exists in
    the code). -/
theorem classify_neg_is_normal_cx : classify (-1) = some Tier.normal ∧
    classify (-1) ≠ none := by decide

/-- C8 amended: classify never fails: there is no `InvalidScoreError` in the
    code and every integer score, negative ones included, falls into some
    branch - a negative score lands in the first branch (`score <= 10`) and
    yields the Normal result; for every non-negative score the chain is total
    and returns the tier of the six-range table (so no input in [0, 63]
    raises). -/
theorem classify_total_all_ints (s : Int) :
    (classify s).isSome = true ∧
    (s < 0 → classify s = some .normal) ∧
    (0 ≤ s → classify s = some (specTier s.toNat)) := by
  refine ⟨?_, fun h => ?_, fun h => ?_⟩
  · unfold classify
    split_ifs <;> first | rfl | omega
  · unfold classify
    split_ifs <;> first | rfl | omega
  · have h2 : s = ((s.toNat : Nat) : Int) := (Int.toNat_of_nonneg h).symm
    rw [h2]
    exact classify_coe_nat s.toNat

/-- C8 amended witness: the score -5 is classified Normal rather than
    rejected. -/
theorem classify_total_all_ints_w : classify (-5) = some Tier.normal :=
  (classify_total_all_ints (-5)).2.1 (by decide)


/-- C9: the question bank holds exactly 21 questions in a fixed order, each
    with exactly 4 choices whose weight equals its positional index (the
    option at position j carries the stored value `str(j)`, the integer the
    engine later adds to the score); `size()` returns 21 and
    `get(index)` fails (`OutOfRangeError`, here `none`) exactly for indices
    outside [0, 20]. -/
theorem question_bank_structure :
    size = 21 ∧ questions.length = 21 ∧
    (∀ q ∈ questions, q.options.length = 4) ∧
    (∀ q ∈ questions, (selection q).length = 4 ∧
      ∀ j ∈ List.range 4,
        (selection q).getD j ⟨"", ""⟩ = ⟨q.options.getD j "", toString j⟩) ∧
    (∀ i : Int, (get i).isSome = true ↔ 0 ≤ i ∧ i ≤ 20) := by
  refine ⟨rfl, rfl, by decide, by decide, fun i => ?_⟩
  unfold get
  split_ifs with h
  · have hlt : i.toNat < questions.length := by
      have hq : questions.length = 21 := rfl
      omega
    rw [List.get?_eq_get hlt]
    simp [h]
  · simp [h]

/-- C9 witness: the third menu option of the first bank question is its third
    statement with stored weight value "2". -/
theorem question_bank_structure_w :
    (selection q0).getD 2 ⟨"", ""⟩ = ⟨q0.options.getD 2 "", toString 2⟩ :=
  (question_bank_structure.2.2.2.1 q0 (by decide)).2 2 (by decide)


/-- The wait run by the engine for question `i` is `wait_for` under the
    composite filter `qcheck`. -/
theorem wait_for_component_eq (owner i : Nat) (tr : List TEv) :
    wait_for_component [toString i] (check owner i) 60 tr =
      wait_for 60 (qcheck owner i) tr := rfl

/-- Acceptance characterization of the bounded wait: when `wait_for` returns
    a response, the stream splits into a prefix of dropped events - each
    failing the check and each arriving within its own fresh window - followed
    by the accepted event, itself within its own window; the reported elapsed
    time is the sum of all consumed gaps. -/
theorem wait_for_some_eq (t0 : Nat) (chk : Resp → Bool) :
    ∀ (tr : List TEv) (r : Resp) (rem : List TEv) (e : Nat),
      wait_for t0 chk tr = some (r, rem, e) →
      ∃ pre g, tr = pre ++ ⟨g, r⟩ :: rem ∧
        (∀ x ∈ pre, chk x.resp = false ∧ x.gap < t0) ∧
        chk r = true ∧ g < t0 ∧ e = (pre.map TEv.gap).sum + g := by
  intro tr
  induction tr with
  | nil => intro r rem e h; simp [wait_for] at h
  | cons te rest ih =>
      obtain ⟨tg, trs⟩ := te
      intro r rem e h
      by_cases h1 : t0 ≤ tg
      · rw [wait_for, if_pos h1] at h
        exact absurd h (by simp)
      · cases h2 : chk trs with
        | true =>
            rw [wait_for, if_neg h1, if_pos h2] at h
            simp only [Option.some.injEq, Prod.mk.injEq] at h
            obtain ⟨hr, hrem, he⟩ := h
            subst hr
            subst hrem
            subst he
            exact ⟨[], tg, rfl, by simp, h2, by omega, by simp⟩
        | false =>
            rw [wait_for, if_neg h1, if_neg (by simp [h2])] at h
            cases hrec : wait_for t0 chk rest with
            | none =>
                rw [hrec] at h
                exact absurd h (by simp)
            | some v =>
                obtain ⟨r2, rem2, t2⟩ := v
                rw [hrec] at h
                simp only [Option.some.injEq, Prod.mk.injEq] at h
                obtain ⟨hr, hrem, he⟩ := h
                subst hr
                subst hrem
                subst he
                obtain ⟨pre, g, htr, hpre, hchk, hg, hsum⟩ := ih r2 rem2 t2 hrec
                refine ⟨⟨tg, trs⟩ :: pre, g, by simp [htr], ?_, hchk, hg, ?_⟩
                · intro x hx
                  rcases List.mem_cons.mp hx with hx | hx
                  · subst hx
                    refine ⟨h2, ?_⟩
                    show tg < t0
                    omega
                  · exact hpre x hx
                · simp only [List.map_cons, List.sum_cons, hsum]
                  omega

/-- A dispatched event that fails the check and arrives inside its window is
    dropped: the loop re-arms and continues on the rest of the stream, only
    adding the consumed gap to the elapsed time. -/
theorem wait_for_skip (t0 : Nat) (chk : Resp → Bool) (g : Nat) (r : Resp)
    (rest : List TEv) (hchk : chk r = false) (hg : g < t0) :
    wait_for t0 chk (⟨g, r⟩ :: rest) =
      match wait_for t0 chk rest with
      | none => none
      | some (x, rem, t) => some (x, rem, g + t) := by
  rw [wait_for, if_neg (Nat.not_le.mpr hg), if_neg (by simp [hchk])]

/-- Dropping a filtered-out event does not change the engine\x27s behaviour:
    same position, same score, same continuation. -/
theorem runQuestionsF_skip (owner : Nat) (qs : List Question) (i s g : Nat)
    (r : Resp) (tr : List TEv) (del : List Bool)
    (hchk : qcheck owner i r = false) (hg : g < 60) :
    runQuestionsF owner qs i s (⟨g, r⟩ :: tr) del =
      runQuestionsF owner qs i s tr del := by
  cases qs with
  | nil => rfl
  | cons q qs =>
      rw [runQuestionsF, runQuestionsF, wait_for_component_eq, wait_for_component_eq,
        wait_for_skip 60 (qcheck owner i) g r tr hchk hg]
      cases wait_for 60 (qcheck owner i) tr with
      | none => rfl
      | some v => obtain ⟨x, rem, t⟩ := v; rfl

/-- The elapsed time to acceptance is unbounded when filtered-out events keep
    arriving within each fresh window: `m` stranger responses at gap 59
    followed by the owner\x27s response. -/
theorem wait_for_replicate (m : Nat) :
    wait_for 60 (qcheck 1 0) (List.replicate m ⟨59, strangerResp⟩ ++ [⟨59, ownerResp⟩]) =
      some (ownerResp, [], 59 * m + 59) := by
  induction m with
  | zero => decide
  | succ k ih =>
      rw [List.replicate_succ, List.cons_append,
        wait_for_skip 60 (qcheck 1 0) 59 strangerResp _ (by decide) (by omega), ih]
      have harith : 59 + (59 * k + 59) = 59 * (k + 1) + 59 := by ring
      show some (ownerResp, [], 59 + (59 * k + 59)) =
        some (ownerResp, [], 59 * (k + 1) + 59)
      rw [harith]

/-- C7 counterexample: with a non-matching response arriving 59 units after
    question 0\x27s presentation and the owner\x27s matching response 59 units
    after that, the wait does not expire at 60 units - it accepts the match
    at total elapsed time 118 > 60, because each dispatched event re-arms a
    fresh 60-unit `asyncio.wait_for` window. -/
theorem deadline_not_wallclock_cx :
    wait_for 60 (qcheck 1 0) [⟨59, strangerResp⟩, ⟨59, ownerResp⟩] =
      some (ownerResp, [], 118) ∧ 60 < 118 := by decide

/-- C7 amended: the 60-unit window is per dispatched event, not a single
    wall-clock deadline per question: every event (matching or not) that
    arrives within the current window re-arms a fresh 60-unit `asyncio.wait_for`
    window, so the wait for one question expires only when 60 units pass with
    no component event dispatched at all, and with non-matching responses
    arriving in between the total wait can exceed 60 units after the
    question\x27s presentation without bound.  The window does reset when a new
    question is presented (a new `wait_for` call), and expiry is detected by
    the bounded wait primitive, not by polling. -/
theorem deadline_resets_per_event :
    (∀ (t0 : Nat) (chk : Resp → Bool) (tr : List TEv) (r : Resp) (rem : List TEv) (e : Nat),
      wait_for t0 chk tr = some (r, rem, e) →
      ∃ pre g, tr = pre ++ ⟨g, r⟩ :: rem ∧
        (∀ x ∈ pre, chk x.resp = false ∧ x.gap < t0) ∧
        chk r = true ∧ g < t0 ∧ e = (pre.map TEv.gap).sum + g) ∧
    (∀ (t0 : Nat) (chk : Resp → Bool) (g : Nat) (r : Resp) (rest : List TEv),
      t0 ≤ g → wait_for t0 chk (⟨g, r⟩ :: rest) = none) ∧
    (∀ n : Nat, ∃ (tr : List TEv) (r : Resp) (rem : List TEv) (e : Nat),
      wait_for 60 (qcheck 1 0) tr = some (r, rem, e) ∧ n ≤ e) := by
  refine ⟨fun t0 chk tr r rem e h => wait_for_some_eq t0 chk tr r rem e h,
    fun t0 chk g r rest h => ?_, fun n => ?_⟩
  · rw [wait_for, if_pos h]
  · exact ⟨_, _, _, _, wait_for_replicate n, by omega⟩

/-- C7 amended witness: accepting the owner\x27s immediate response to question
    0 at gap 5 decomposes as an empty dropped prefix plus the in-window
    accepted event. -/
theorem deadline_resets_per_event_w :
    ∃ pre g, ([⟨5, ownerResp⟩] : List TEv) = pre ++ ⟨g, ownerResp⟩ :: [] ∧
      (∀ x ∈ pre, qcheck 1 0 x.resp = false ∧ x.gap < 60) ∧
      qcheck 1 0 ownerResp = true ∧ g < 60 ∧ 5 = (pre.map TEv.gap).sum + g :=
  deadline_resets_per_event.1 60 (qcheck 1 0) [⟨5, ownerResp⟩] ownerResp [] 5 (by decide)

/-- C4: a response whose correlation token (`custom_id`) differs from the
    pending question\x27s, or whose author differs from the session owner, is
    filtered out and causes no state transition: position and score are
    unchanged and the session continues the same wait on the rest of the
    stream.  (The composite filter accepts exactly the owner\x27s responses
    bearing the pending question\x27s token.) -/
theorem mismatched_response_ignored :
    (∀ (owner i : Nat) (r : Resp),
      qcheck owner i r = true ↔ r.author = owner ∧ r.customId = toString i) ∧
    (∀ (owner : Nat) (qs : List Question) (i s g : Nat) (r : Resp)
      (tr : List TEv) (del : List Bool),
      qcheck owner i r = false → g < 60 →
      runQuestionsF owner qs i s (⟨g, r⟩ :: tr) del =
        runQuestionsF owner qs i s tr del) := by
  refine ⟨fun owner i r => ?_, fun owner qs i s g r tr del h1 h2 =>
    runQuestionsF_skip owner qs i s g r tr del h1 h2⟩
  unfold qcheck libCheck check
  by_cases hc : r.customId = toString i <;> simp [hc, List.contains]

/-- C4 witness: a stranger\x27s response to question 0 leaves the session
    exactly as if the response had never been dispatched. -/
theorem mismatched_response_ignored_w :
    runQuestionsF 1 questions 0 0 [⟨0, strangerResp⟩] [] =
      runQuestionsF 1 questions 0 0 [] [] :=
  mismatched_response_ignored.2 1 questions 0 0 0 strangerResp [] []
    (by decide) (by decide)


/-- C3: if the bounded wait for the current question yields no matching
    response (for whatever question index the session has reached), the
    session transitions to the aborted-by-timeout terminal: the pending
    presentation is retracted, the ephemeral retry notice is emitted, and the
    run ends - no further question is presented and nothing else is sent.
    Consequently, any session that ends aborted-by-timeout reports no result
    message at all, retracts every presentation it made, and its last
    outbound effect is the retry notice. -/
theorem timeout_aborts_session :
    (∀ (owner : Nat) (q : Question) (qs : List Question) (i s : Nat)
        (tr : List TEv) (del : List Bool),
      (∀ b ∈ del, b = true) →
      wait_for_component [toString i] (check owner i) 60 tr = none →
      runQuestionsF owner (q :: qs) i s tr del =
        (.abortedTimeout, [.present i true, .retract true, .notifyTimeout true])) ∧
    (∀ (owner : Nat) (tr : List TEv) (del : List Bool),
      (∀ b ∈ del, b = true) →
      (depression owner tr del).1 = .abortedTimeout →
      (∀ t b, Effect.sendResult t b ∉ (depression owner tr del).2) ∧
      countPresent (depression owner tr del).2 =
        countRetract (depression owner tr del).2 ∧
      (depression owner tr del).2.getLast? = some (.notifyTimeout true)) := by
  constructor
  · intro owner q qs i s tr del hdel hW
    have hhd : del.headD true = true := headD_true del hdel
    rw [List.headD_eq_head?] at hhd
    rw [runQuestionsF, hW]
    simp [hhd]
  · intro owner tr del hdel hout
    rcases runF_shape owner questions 0 0 tr del hdel with ⟨f, hrun⟩ | ⟨k, hk, hrun⟩
    · rw [show depression owner tr del = runQuestionsF owner questions 0 0 tr del from rfl,
        hrun] at hout
      simp at hout
    · rw [show depression owner tr del = runQuestionsF owner questions 0 0 tr del from rfl,
        hrun] at hout ⊢
      refine ⟨?_, ?_, ?_⟩
      · intro t b
        simp only [List.mem_append, List.mem_singleton]
        rintro (h | h)
        · exact sendResult_not_mem_answered (k + 1) 0 t b h
        · exact absurd h (by simp)
      · simp only [countPresent, countRetract, List.countP_append]
        have h1 := countPresent_answered (k + 1) 0
        have h2 := countRetract_answered (k + 1) 0
        simp only [countPresent, countRetract] at h1 h2
        simp [h1, h2, List.countP_cons, isPresentB, isRetractB]
      · exact List.getLast?_concat _

/-- C3 witness: a session whose event stream is empty times out on question
    0 and ends with exactly the present/retract/retry-notice effects. -/
theorem timeout_aborts_session_w :
    runQuestionsF 1 [q0] 0 0 [] [] =
      (.abortedTimeout, [.present 0 true, .retract true, .notifyTimeout true]) :=
  timeout_aborts_session.1 1 q0 [] 0 0 [] [] (by simp) rfl

/-- C6 counterexample: with the owner answering question 0 immediately but
    the retraction (`ctx.delete()`) failing, the session does not progress to
    question 1 and does not terminate gracefully - the exception propagates
    (only `asyncio.TimeoutError` is caught) and the run crashes after the
    failed retract, with no retry notice and no further effects. -/
theorem retract_failure_crashes_cx :
    depression 1 [⟨0, ownerResp⟩] [false] =
      (.crashed, [.present 0 true, .retract false]) := by decide

/-- C6 amended: delivery failures of the retract operation are not swallowed:
    whenever the next `ctx.delete()` fails - on the answer path or on the
    timeout path alike - the exception propagates and the session terminates
    immediately after the failed retract, presenting no further question and
    sending no further message.  Only the bounded wait\x27s `TimeoutError` is
    caught: with reliable deletes a session never crashes, it completes or
    aborts by timeout. -/
theorem retract_failure_not_swallowed :
    (∀ (owner : Nat) (q : Question) (qs : List Question) (i s : Nat)
        (tr : List TEv) (del : List Bool),
      runQuestionsF owner (q :: qs) i s tr (false :: del) =
        (.crashed, [.present i true, .retract false])) ∧
    (∀ (owner : Nat) (tr : List TEv) (del : List Bool),
      (∀ b ∈ del, b = true) → (depression owner tr del).1 ≠ .crashed) := by
  constructor
  · intro owner q qs i s tr del
    rw [runQuestionsF]
    cases hW : wait_for_component [toString i] (check owner i) 60 tr with
    | none => simp
    | some v => obtain ⟨r, rest, e⟩ := v; simp
  · intro owner tr del hdel
    rcases runF_shape owner questions 0 0 tr del hdel with ⟨f, hrun⟩ | ⟨k, hk, hrun⟩ <;>
      rw [show depression owner tr del = runQuestionsF owner questions 0 0 tr del from rfl,
        hrun] <;>
      simp

/-- C6 amended witness: a session with reliable deletes (and an empty event
    stream) ends without crashing. -/
theorem retract_failure_not_swallowed_w :
    (depression 1 [] []).1 ≠ .crashed :=
  retract_failure_not_swallowed.2 1 [] [] (by simp)

/-- Every effect the question loop emits carries `ephemeral = true` wherever
    the flag exists (presentations, the retry notice, the final result);
    retractions carry no flag. -/
theorem runF_all_ephemeral (owner : Nat) :
    ∀ (qs : List Question) (i s : Nat) (tr : List TEv) (del : List Bool),
      ∀ e ∈ (runQuestionsF owner qs i s tr del).2, ephemeralOk e = true := by
  intro qs
  induction qs with
  | nil =>
      intro i s tr del e he
      rw [show (runQuestionsF owner [] i s tr del) = (.scored s, resultEffs s) from rfl,
        resultEffs_eq] at he
      simp at he
      subst he
      rfl
  | cons q qs ih =>
      intro i s tr del e he
      rw [runQuestionsF] at he
      cases hW : wait_for_component [toString i] (check owner i) 60 tr with
      | none =>
          rw [hW] at he
          cases hd : del.headD true with
          | true =>
              rw [hd] at he
              simp at he
              rcases he with he | he | he <;> subst he <;> rfl
          | false =>
              rw [hd] at he
              simp at he
              rcases he with he | he <;> subst he <;> rfl
      | some v =>
          obtain ⟨r, rest, e2⟩ := v
          rw [hW] at he
          cases hd : del.headD true with
          | false =>
              rw [hd] at he
              simp at he
              rcases he with he | he <;> subst he <;> rfl
          | true =>
              rw [hd] at he
              simp at he
              rcases he with he | he | he
              · subst he; rfl
              · subst he; rfl
              · exact ih (i + 1) (s + r.value) rest del.tail e he

/-- C10: every outbound message of a session - each question presentation,
    the timeout retry notice, and the final tiered result - is sent with the
    ephemeral flag set, so all questionnaire content and the screening result
    are visible only to the invoking user. -/
theorem all_messages_ephemeral (owner : Nat) (tr : List TEv) (del : List Bool) :
    ∀ e ∈ (depression owner tr del).2, ephemeralOk e = true :=
  runF_all_ephemeral owner questions 0 0 tr del

/-- C10 witness: the presentation of question 0 in the empty-stream session
    is ephemeral. -/
theorem all_messages_ephemeral_w : ephemeralOk (.present 0 true) = true :=
  all_messages_ephemeral 1 [] [] (.present 0 true) (by decide)


/-- Balance invariant of the answered-questions log followed by one final
    non-present non-retract effect: every take-prefix has at most one more
    presentation than retractions and never more retractions than
    presentations, and at each position holding a presentation the counts
    before it are equal (everything previously presented was retracted). -/
theorem answered_balance (x : Effect) (hx1 : isPresentB x = false)
    (hx2 : isRetractB x = false) :
    ∀ (m i n : Nat),
      countRetract ((answeredEffs i m ++ [x]).take n) ≤
        countPresent ((answeredEffs i m ++ [x]).take n) ∧
      countPresent ((answeredEffs i m ++ [x]).take n) ≤
        countRetract ((answeredEffs i m ++ [x]).take n) + 1 ∧
      (∀ j b, (answeredEffs i m ++ [x]).get? n = some (.present j b) →
        countPresent ((answeredEffs i m ++ [x]).take n) =
          countRetract ((answeredEffs i m ++ [x]).take n)) := by
  intro m
  induction m with
  | zero =>
      intro i n
      match n with
      | 0 =>
          refine ⟨Nat.le_refl _, Nat.le_succ _, fun j b h => ?_⟩
          simp [answeredEffs] at h
          subst h
          simp [isPresentB] at hx1
      | n + 1 =>
          simp [answeredEffs, countPresent, countRetract, List.countP_cons, hx1, hx2]
  | succ k ih =>
      intro i n
      match n with
      | 0 => exact ⟨Nat.le_refl _, Nat.le_succ _, fun j b h => rfl⟩
      | 1 =>
          refine ⟨?_, ?_, ?_⟩
          · show countRetract [.present i true] ≤ countPresent [.present i true]
            simp [countPresent, countRetract, List.countP_cons, isPresentB, isRetractB]
          · show countPresent [.present i true] ≤ countRetract [.present i true] + 1
            simp [countPresent, countRetract, List.countP_cons, isPresentB, isRetractB]
          · intro j b h
            simp [answeredEffs] at h
      | n + 2 =>
          obtain ⟨ha, hb, hc⟩ := ih (i + 1) n
          have hcp : countPresent ((answeredEffs i (k + 1) ++ [x]).take (n + 2)) =
              countPresent ((answeredEffs (i + 1) k ++ [x]).take n) + 1 := by
            show countPresent (.present i true :: .retract true ::
              ((answeredEffs (i + 1) k ++ [x]).take n)) = _
            simp [countPresent, List.countP_cons, isPresentB]
          have hcr : countRetract ((answeredEffs i (k + 1) ++ [x]).take (n + 2)) =
              countRetract ((answeredEffs (i + 1) k ++ [x]).take n) + 1 := by
            show countRetract (.present i true :: .retract true ::
              ((answeredEffs (i + 1) k ++ [x]).take n)) = _
            simp [countRetract, List.countP_cons, isPresentB, isRetractB]
          refine ⟨by omega, by omega, fun j b h => ?_⟩
          have hg : (answeredEffs i (k + 1) ++ [x]).get? (n + 2) =
              (answeredEffs (i + 1) k ++ [x]).get? n := rfl
          rw [hg] at h
          have := hc j b h
          omega

/-- The presentations in the answered log followed by a final non-present
    effect are the `m` consecutive question indices starting at `i`, in
    order. -/
theorem presentsOf_answered (x : Effect) (hx1 : isPresentB x = false) :
    ∀ (m i : Nat), presentsOf (answeredEffs i m ++ [x]) = List.range' i m := by
  intro m
  induction m with
  | zero =>
      intro i
      cases x with
      | present j b => simp [isPresentB] at hx1
      | retract ok => simp [answeredEffs, presentsOf]
      | notifyTimeout e => simp [answeredEffs, presentsOf]
      | sendResult t e => simp [answeredEffs, presentsOf]
  | succ k ih =>
      intro i
      simp only [answeredEffs, List.cons_append, presentsOf, List.filterMap_cons]
      simp only [presentsOf] at ih
      rw [ih (i + 1), List.range'_succ]

/-- C5: within one session questions are presented strictly sequentially -
    the presented indices form the initial segment 0, 1, ..., k-1 of the
    question order, so question i+1 is never presented before question i is
    resolved - and at any moment at most one presentation is outstanding:
    every prefix of the effect log has at most one more present than
    retracts, and at the moment each question is presented all previous
    presentations have been retracted (exactly the new one is outstanding
    during its wait). -/
theorem strict_sequential_presentation
    (owner : Nat) (tr : List TEv) (del : List Bool) (out : Outcome)
    (effs : List Effect) (hdel : ∀ b ∈ del, b = true)
    (hrun : depression owner tr del = (out, effs)) :
    (∃ k ≤ 21, presentsOf effs = List.range k) ∧
    (∀ n, countRetract (effs.take n) ≤ countPresent (effs.take n) ∧
      countPresent (effs.take n) ≤ countRetract (effs.take n) + 1) ∧
    (∀ n j b, effs.get? n = some (.present j b) →
      countPresent (effs.take n) = countRetract (effs.take n)) := by
  have hq : questions.length = 21 := rfl
  rcases runF_shape owner questions 0 0 tr del hdel with ⟨f, hrun2⟩ | ⟨k, hk, hrun2⟩
  · rw [show depression owner tr del = runQuestionsF owner questions 0 0 tr del from rfl,
      hrun2, resultEffs_eq] at hrun
    have heffs : effs = answeredEffs 0 questions.length ++ [.sendResult (specTier f) true] :=
      (Prod.mk.injEq .. ▸ hrun).2.symm
    subst heffs
    refine ⟨⟨21, Nat.le_refl _, ?_⟩, fun n => ?_, fun n j b h => ?_⟩
    · rw [presentsOf_answered (.sendResult (specTier f) true) rfl questions.length 0, hq]
      exact (List.range_eq_range' 21).symm
    · exact ⟨(answered_balance (.sendResult (specTier f) true) rfl rfl questions.length 0 n).1,
        (answered_balance (.sendResult (specTier f) true) rfl rfl questions.length 0 n).2.1⟩
    · exact (answered_balance (.sendResult (specTier f) true) rfl rfl questions.length 0 n).2.2 j b h
  · rw [show depression owner tr del = runQuestionsF owner questions 0 0 tr del from rfl,
      hrun2] at hrun
    have heffs : effs = answeredEffs 0 (k + 1) ++ [.notifyTimeout true] :=
      (Prod.mk.injEq .. ▸ hrun).2.symm
    subst heffs
    refine ⟨⟨k + 1, by omega, ?_⟩, fun n => ?_, fun n j b h => ?_⟩
    · rw [presentsOf_answered (.notifyTimeout true) rfl (k + 1) 0]
      exact (List.range_eq_range' (k + 1)).symm
    · exact ⟨(answered_balance (.notifyTimeout true) rfl rfl (k + 1) 0 n).1,
        (answered_balance (.notifyTimeout true) rfl rfl (k + 1) 0 n).2.1⟩
    · exact (answered_balance (.notifyTimeout true) rfl rfl (k + 1) 0 n).2.2 j b h


/-- C5 witness: the empty-stream session (which presents question 0, times
    out, and aborts) presents the initial segment of questions in order and
    never has two presentations outstanding. -/
theorem strict_sequential_presentation_w :
    (∃ k ≤ 21, presentsOf abortEffs = List.range k) ∧
    (∀ n, countRetract (abortEffs.take n) ≤ countPresent (abortEffs.take n) ∧
      countPresent (abortEffs.take n) ≤ countRetract (abortEffs.take n) + 1) ∧
    (∀ n j b, abortEffs.get? n = some (.present j b) →
      countPresent (abortEffs.take n) = countRetract (abortEffs.take n)) :=
  strict_sequential_presentation 1 [] [] .abortedTimeout abortEffs (by simp)
    (by decide)

/-- The score accumulator on entering any question equals the start value:
    head of the partial-score trace. -/
theorem partialScores_head (owner : Nat) (qs : List Question) (i s : Nat)
    (tr : List TEv) : (partialScores owner qs i s tr).head? = some s := by
  cases qs with
  | nil => rfl
  | cons q qs =>
      rw [partialScores]
      cases wait_for_component [toString i] (check owner i) 60 tr with
      | none => rfl
      | some v => obtain ⟨r, rest, e⟩ := v; rfl

/-- The partial-score trace is never empty. -/
theorem partialScores_ne_nil (owner : Nat) (qs : List Question) (i s : Nat)
    (tr : List TEv) : partialScores owner qs i s tr ≠ [] := by
  cases qs with
  | nil => simp [partialScores]
  | cons q qs =>
      rw [partialScores]
      cases wait_for_component [toString i] (check owner i) 60 tr with
      | none => simp
      | some v => obtain ⟨r, rest, e⟩ := v; simp

/-- The score accumulator never decreases during a session. -/
theorem partialScores_chain (owner : Nat) :
    ∀ (qs : List Question) (i s : Nat) (tr : List TEv),
      List.Chain' (· ≤ ·) (partialScores owner qs i s tr) := by
  intro qs
  induction qs with
  | nil => intro i s tr; simp [partialScores]
  | cons q qs ih =>
      intro i s tr
      rw [partialScores]
      cases hW : wait_for_component [toString i] (check owner i) 60 tr with
      | none => simp
      | some v =>
          obtain ⟨r, rest, e⟩ := v
          rw [List.chain'_cons']
          refine ⟨fun y hy => ?_, ih (i + 1) (s + r.value) rest⟩
          rw [partialScores_head] at hy
          simp only [Option.mem_def, Option.some.injEq] at hy
          omega

/-- Every intermediate score is bounded by the start value plus 3 per
    remaining question, provided dispatched weights respect the menus. -/
theorem partialScores_bound (owner : Nat) :
    ∀ (qs : List Question) (i s : Nat) (tr : List TEv),
      wfTrace tr →
      ∀ x ∈ partialScores owner qs i s tr, x ≤ s + 3 * qs.length := by
  intro qs
  induction qs with
  | nil =>
      intro i s tr hwf x hx
      simp [partialScores] at hx
      omega
  | cons q qs ih =>
      intro i s tr hwf x hx
      rw [partialScores] at hx
      cases hW : wait_for_component [toString i] (check owner i) 60 tr with
      | none =>
          rw [hW] at hx
          simp at hx
          subst hx
          simp only [List.length_cons]
          omega
      | some v =>
          obtain ⟨r, rest, e⟩ := v
          rw [hW] at hx
          simp only [List.mem_cons] at hx
          rcases hx with hx | hx
          · subst hx
            simp only [List.length_cons]
            omega
          · obtain ⟨pre, g, htr, hpre, hchk, hg, hsum⟩ :=
              wait_for_some_eq 60 (qcheck owner i) tr r rest e
                (by rw [← wait_for_component_eq owner i tr]; exact hW)
            have hrv : r.value ≤ 3 := by
              have := hwf ⟨g, r⟩ (by
                rw [htr]
                exact List.mem_append_right _ (List.mem_cons_self _ _))
              exact this
            have hwf2 : wfTrace rest := by
              intro ev hev
              refine hwf ev ?_
              rw [htr]
              exact List.mem_append_right _ (List.mem_cons_of_mem _ hev)
            have hb := ih (i + 1) (s + r.value) rest hwf2 x hx
            simp only [List.length_cons]
            omega

/-- A completed run\x27s final score is the start value plus the sum of the
    accepted weights, and is the last entry of the partial-score trace. -/
theorem runF_scored_sum (owner : Nat) :
    ∀ (qs : List Question) (i s : Nat) (tr : List TEv) (del : List Bool)
      (f : Nat) (effs : List Effect),
      runQuestionsF owner qs i s tr del = (.scored f, effs) →
      f = s + (selectedWeights owner qs i tr).sum ∧
      (partialScores owner qs i s tr).getLast? = some f := by
  intro qs
  induction qs with
  | nil =>
      intro i s tr del f effs h
      rw [runQuestionsF] at h
      simp only [Prod.mk.injEq, Outcome.scored.injEq] at h
      obtain ⟨hf, _⟩ := h
      subst hf
      simp [selectedWeights, partialScores]
  | cons q qs ih =>
      intro i s tr del f effs h
      cases hW : wait_for_component [toString i] (check owner i) 60 tr with
      | none =>
          rw [runQuestionsF, hW] at h
          cases hd : del.headD true with
          | true => rw [hd] at h; simp at h
          | false => rw [hd] at h; simp at h
      | some v =>
          obtain ⟨r, rest, e⟩ := v
          cases hd : del.headD true with
          | false =>
              rw [List.headD_eq_head?] at hd
              have hstep : runQuestionsF owner (q :: qs) i s tr del =
                  (.crashed, [.present i true, .retract false]) := by
                rw [runQuestionsF, hW]
                simp [hd]
              rw [hstep] at h
              simp at h
          | true =>
              rw [List.headD_eq_head?] at hd
              rcases hrec : runQuestionsF owner qs (i + 1) (s + r.value) rest del.tail
                with ⟨out2, effs2⟩
              have hstep : runQuestionsF owner (q :: qs) i s tr del =
                  (out2, .present i true :: .retract true :: effs2) := by
                rw [runQuestionsF, hW]
                simp [hd, hrec]
              rw [hstep] at h
              simp only [Prod.mk.injEq] at h
              obtain ⟨hout, heff⟩ := h
              rw [hout] at hrec
              obtain ⟨hsum, hlast⟩ :=
                ih (i + 1) (s + r.value) rest del.tail f effs2 hrec
              constructor
              · rw [selectedWeights, hW, List.sum_cons]
                omega
              · rw [partialScores, hW]
                show (s :: partialScores owner qs (i + 1) (s + r.value) rest).getLast? =
                  some f
                obtain ⟨y, ys, hy⟩ := List.exists_cons_of_ne_nil
                  (partialScores_ne_nil owner qs (i + 1) (s + r.value) rest)
                rw [hy, List.getLast?_cons_cons, ← hy]
                exact hlast

/-- C2: for every session that completes all 21 questions the final score
    equals the sum of the weights of the selected choices, and (with
    dispatched weights respecting the menus\x27 0-3 values) it is at most 63;
    during any session the score accumulator is monotonically non-decreasing
    and every intermediate value lies in [0, 63] (it is a `Nat`, hence
    non-negative). -/
theorem score_is_sum_of_weights :
    (∀ (owner : Nat) (tr : List TEv) (del : List Bool) (f : Nat)
        (effs : List Effect),
      wfTrace tr →
      depression owner tr del = (.scored f, effs) →
      f = (selectedWeights owner questions 0 tr).sum ∧ f ≤ 63) ∧
    (∀ (owner : Nat) (tr : List TEv),
      List.Chain' (· ≤ ·) (partialScores owner questions 0 0 tr) ∧
      (wfTrace tr → ∀ x ∈ partialScores owner questions 0 0 tr, x ≤ 63)) := by
  have hq : questions.length = 21 := rfl
  constructor
  · intro owner tr del f effs hwf hrun
    obtain ⟨hsum, hlast⟩ := runF_scored_sum owner questions 0 0 tr del f effs hrun
    refine ⟨by simpa using hsum, ?_⟩
    have hfm : f ∈ (partialScores owner questions 0 0 tr).getLast? :=
      Option.mem_def.mpr hlast
    obtain ⟨hne, heq⟩ := List.mem_getLast?_eq_getLast hfm
    have hmem : f ∈ partialScores owner questions 0 0 tr :=
      heq ▸ List.getLast_mem hne
    have hb := partialScores_bound owner questions 0 0 tr hwf f hmem
    rw [hq] at hb
    omega
  · intro owner tr
    refine ⟨partialScores_chain owner questions 0 0 tr, fun hwf x hx => ?_⟩
    have hb := partialScores_bound owner questions 0 0 tr hwf x hx
    rw [hq] at hb
    omega

/-- C2 witness: the complete session in which the owner picks the most
    severe choice everywhere ends with score 63, the sum of the 21 selected
    weights. -/
theorem score_is_sum_of_weights_w :
    63 = (selectedWeights 1 questions 0 fullTrace).sum ∧ 63 ≤ 63 :=
  score_is_sum_of_weights.1 1 fullTrace [] 63 fullEffs
    (by unfold wfTrace; decide) (by decide)

end CliniCord
